import Mathlib

/-!
# Verification of the GhostKitty StemSplitter pipeline (`src/ghostkitty.py`)

A shallow embedding of the `GhostKittyStemSplitter` class.  File-system and
library effects (decoding, model loading, stem writing) are modelled by an
oracle `World`; each run additionally produces a trace of I/O events so that
ordering and "no I/O happened" statements can be made precise.  Audio samples
are abstracted as integers: no claim inspects sample values, only shapes.
-/

namespace GhostKitty

/-- Audio samples are opaque; only buffer shapes matter for the claims. -/
abbrev Sample := Int

/-- A waveform as a list of channels, each channel a list of samples
(the `torch.Tensor` of shape `[channels, length]`). -/
abbrev Waveform := List (List Sample)

/-- Number of samples of a waveform (`waveform.shape[1]`). -/
def wlen (w : Waveform) : Nat := (w.headD []).length

/-- A directory path, as a list of components. -/
abbrev Dir := List String

/-- A `pathlib.Path` to a file, pre-split into parent directory, stem and
suffix exactly as `pathlib` exposes them (`p.stem`, `p.suffix`; the suffix
carries its leading dot, or is empty). -/
structure FP where
  parent : Dir
  stem : String
  suffix : String
deriving DecidableEq, Repr

/-- `p.name` in `pathlib`: stem plus suffix. -/
def FP.name (p : FP) : String := p.stem ++ p.suffix

/-- Last index of `'.'` in a list of characters (`str.rfind('.')`),
`none` when there is no dot. -/
def rfindDot : List Char → Option Nat
  | [] => none
  | c :: rest =>
    match rfindDot rest with
    | some i => some (i + 1)
    | none => if c = '.' then some 0 else none

/-- `pathlib.PurePath.suffix` of a file name: the part from the last dot on,
provided that dot is neither the first nor the last character. -/
def pySuffix (n : String) : String :=
  let cs := n.toList
  match rfindDot cs with
  | some i => if 0 < i ∧ i + 1 < cs.length then String.mk (cs.drop i) else ""
  | none => ""

/-- `pathlib.PurePath.stem` of a file name: the part before the suffix. -/
def pyStem (n : String) : String :=
  let cs := n.toList
  match rfindDot cs with
  | some i => if 0 < i ∧ i + 1 < cs.length then String.mk (cs.take i) else n
  | none => n

/-- Build the `FP` for a directory entry `n` of directory `d`. -/
def nameToFP (d : Dir) (n : String) : FP :=
  ⟨d, pyStem n, pySuffix n⟩

/-- Python `str.lower()` (per character, as on the ASCII extensions here). -/
def strLower (s : String) : String := String.mk (s.data.map Char.toLower)

/-- Python `str.upper()` (per character, as on the ASCII extensions here). -/
def strUpper (s : String) : String := String.mk (s.data.map Char.toUpper)

/-- `self.supported_formats` (a Python set literal; order is irrelevant,
only membership is used). -/
def supported_formats : List String :=
  [".mp3", ".wav", ".flac", ".m4a", ".aac", ".ogg", ".wma"]

/-- `is_supported_format`: the file's suffix, lowercased, is in the set. -/
def is_supported_format (p : FP) : Bool :=
  supported_formats.contains (strLower p.suffix)

/-- `self.stem_names = {0: "drums", 1: "bass", 2: "other", 3: "vocals"}`,
iterated in insertion order by `save_stems`. -/
def stem_items : List (Nat × String) :=
  [(0, "drums"), (1, "bass"), (2, "other"), (3, "vocals")]

/-- The output path `output_dir / f"{filename_base}_{stem_name}.wav"`. -/
def stemPath (dir : Dir) (base : String) (stem : String) : FP :=
  ⟨dir, base ++ "_" ++ stem, ".wav"⟩

/-- `librosa.load(..., mono=False)` returns either a 1-D array (mono file)
or a 2-D channels-by-samples array. -/
inductive LibrosaAudio
  | oneD (xs : List Sample)
  | twoD (chans : List (List Sample))
deriving DecidableEq, Repr

/-- I/O events recorded by a run, in order of occurrence. -/
inductive Ev
  /-- `input_path.exists()` was evaluated. -/
  | existsCheck (p : FP)
  /-- `load_model` ran `get_model` (an attempt, successful or not). -/
  | modelLoad
  /-- `torchaudio.load` was attempted on the file. -/
  | torchTry (p : FP)
  /-- `librosa.load` was attempted on the file. -/
  | librosaTry (p : FP)
  /-- `output_dir.mkdir(parents=True, exist_ok=True)` ran. -/
  | mkdir (d : Dir)
  /-- `sf.write(path, data, rate, subtype)` was attempted; `count` is the
  number of sample frames in `data`, `ok` whether the write succeeded. -/
  | write (path : FP) (count : Nat) (subtype : String) (ok : Bool)
deriving DecidableEq, Repr

/-- The oracle for everything outside the program: file system contents and
the outcomes of the external libraries.  `model` is the external pretrained
separation network (`apply_model`), opaque to this repository. -/
structure World where
  /-- Whether `p.exists()` holds. -/
  fileExists : FP → Bool
  /-- Outcome of `torchaudio.load`: `none` models a raised exception. -/
  torchLoad : FP → Option (Waveform × Nat)
  /-- Outcome of `librosa.load(..., sr=None, mono=False)`. -/
  librosaLoad : FP → Option (LibrosaAudio × Nat)
  /-- Whether `get_model`/`model.to(device)` succeeds. -/
  modelLoadOk : Bool
  /-- The external separation model: waveform to a list of stems. -/
  model : Waveform → List Waveform
  /-- Whether `sf.write` to a given path succeeds. -/
  writeOk : FP → Bool
  /-- Whether a directory exists (`input_dir.exists()`). -/
  dirExists : Dir → Bool
  /-- The entries (file names) of a directory, as seen by `glob`. -/
  listDir : Dir → List String

/-- Modelled from the spec: the contract of the external `apply_model`
(absent from this repository) — it returns "N parallel stem buffers of
identical length", a `StemSet` of "exactly 4 AudioBuffers … each sharing the
sample rate and sample count of the source AudioBuffer". -/
def ModelContract (m : Waveform → List Waveform) : Prop :=
  ∀ wav, (m wav).length = 4 ∧ ∀ s ∈ m wav, s.length = 2 ∧ ∀ c ∈ s, c.length = wlen wav

/-- Channel normalization in `load_audio`'s torchaudio branch:
mono is repeated to stereo, more than two channels are cut to the first two. -/
def fixChannels (wav : Waveform) : Waveform :=
  if wav.length = 1 then wav ++ wav
  else if 2 < wav.length then wav.take 2
  else wav

/-- Channel normalization in the librosa fallback branch: a 1-D result is
stacked with itself (`np.stack([audio, audio])`); a 2-D result is kept as is. -/
def librosaFix : LibrosaAudio → Waveform
  | .oneD xs => [xs, xs]
  | .twoD cs => cs

/-- `load_audio`: try `torchaudio.load`, fall back to `librosa.load`, raise
only when both fail.  Returns the result together with the decode trace. -/
def load_audio (w : World) (p : FP) : Except String (Waveform × Nat) × List Ev :=
  match w.torchLoad p with
  | some (wav, sr) => (.ok (fixChannels wav, sr), [.torchTry p])
  | none =>
    match w.librosaLoad p with
    | some (a, sr) => (.ok (librosaFix a, sr), [.torchTry p, .librosaTry p])
    | none =>
      (.error "Failed to load audio with both torchaudio and librosa",
        [.torchTry p, .librosaTry p])

/-- The write loop of `save_stems` over `stem_names.items()`.  `stems[i]`
out of range models the `IndexError` Python would raise (aborting the loop);
a failing `sf.write` is caught per stem and the loop continues.  Returns the
events together with `false` when an exception escaped the loop. -/
def save_loop (w : World) (stems : List Waveform) (dir : Dir) (base : String) :
    List (Nat × String) → List Ev × Bool
  | [] => ([], true)
  | (i, name) :: rest =>
    match stems[i]? with
    | none => ([], false)
    | some s =>
      let pth := stemPath dir base name
      let r := save_loop w stems dir base rest
      (Ev.write pth (wlen s) "PCM_24" (w.writeOk pth) :: r.1, r.2)

/-- `save_stems`: make the output directory, then write the four stems. -/
def save_stems (w : World) (stems : List Waveform) (dir : Dir) (base : String) :
    List Ev × Bool :=
  (Ev.mkdir dir :: (save_loop w stems dir base stem_items).1,
    (save_loop w stems dir base stem_items).2)

/-- Mutable state of the splitter object: whether `self.model` is loaded. -/
structure SState where
  modelLoaded : Bool
deriving DecidableEq, Repr

/-- The part of `split_audio`'s `try` block after the model is loaded:
decode, separate, save.  A decode failure is the caught exception path. -/
def after_load (w : World) (p : FP) (outDir : Dir) : Bool × List Ev :=
  match load_audio w p with
  | (.error _, tr) => (false, tr)
  | (.ok (wav, _sr), tr) =>
    let r := save_stems w (w.model wav) outDir p.stem
    (r.2, tr ++ r.1)

/-- `split_audio`: format gate, existence check, default output directory,
model load, then the pipeline; every exception inside the `try` block is
converted to `False`.  Returns `(result, new state, event trace)`. -/
def split_audio (w : World) (st : SState) (p : FP) (outDir? : Option Dir) :
    Bool × SState × List Ev :=
  if is_supported_format p = false then (false, st, [])
  else if w.fileExists p = false then (false, st, [.existsCheck p])
  else
    let outDir := outDir?.getD (p.parent ++ [p.stem ++ "_stems"])
    let r := after_load w p outDir
    if st.modelLoaded then
      (r.1, st, .existsCheck p :: r.2)
    else if w.modelLoadOk then
      (r.1, ⟨true⟩, .existsCheck p :: .modelLoad :: r.2)
    else
      (false, st, [.existsCheck p, .modelLoad])

/-- A directory entry matches the glob pattern `f"*{pat}"` exactly when
`pat` is a (case-sensitive) suffix of the entry name. -/
def globMatch (n pat : String) : Bool := decide (pat.data <:+ n.data)

/-- The file enumeration of `batch_split`: for each supported extension,
`glob(f"*{ext}")` then `glob(f"*{ext.upper()}")` — case-sensitive suffix
matches against the directory entries. -/
def batch_candidates (files : List String) : List String :=
  supported_formats.foldr
    (fun ext acc =>
      files.filter (fun n => globMatch n ext)
        ++ files.filter (fun n => globMatch n (strUpper ext)) ++ acc)
    []

/-- The per-file loop of `batch_split`: each file gets output directory
`output_dir / file.stem`, failures just contribute nothing to the count. -/
def batch_loop (w : World) (st : SState) (inDir outDir : Dir) :
    List String → Nat × SState × List Ev
  | [] => (0, st, [])
  | n :: rest =>
    let fp := nameToFP inDir n
    let r := split_audio w st fp (some (outDir ++ [fp.stem]))
    let r2 := batch_loop w r.2.1 inDir outDir rest
    ((if r.1 then 1 else 0) + r2.1, r2.2.1, r.2.2 ++ r2.2.2)

/-- `batch_split`: directory check, enumeration, default output directory
`input_dir / "stems"`, then the sequential loop. -/
def batch_split (w : World) (st : SState) (inDir : Dir) (outDir? : Option Dir) :
    Nat × SState × List Ev :=
  if w.dirExists inDir = false then (0, st, [])
  else
    let names := batch_candidates (w.listDir inDir)
    if names.isEmpty then (0, st, [])
    else
      let outDir := outDir?.getD (inDir ++ ["stems"])
      batch_loop w st inDir outDir names

/-- All attempted stem-write paths of a trace. -/
def allWritePaths (tr : List Ev) : List FP :=
  tr.filterMap fun e =>
    match e with
    | .write p _ _ _ => some p
    | _ => none

/-- The paths of the writes that succeeded (files actually produced). -/
def okWrites (tr : List Ev) : List Ev :=
  tr.filter fun e =>
    match e with
    | .write _ _ _ ok => ok
    | _ => false

/-- The paths of the writes that succeeded, i.e. of files actually produced. -/
def producedPaths : List Ev → List FP
  | [] => []
  | .write p _ _ true :: tr => p :: producedPaths tr
  | _ :: tr => producedPaths tr

/-- The `mkdir` targets of a trace. -/
def mkdirs (tr : List Ev) : List Dir :=
  tr.filterMap fun e =>
    match e with
    | .mkdir d => some d
    | _ => none

/-- Count of decode attempts with a given library event. -/
def countEv (tr : List Ev) (e : Ev) : Nat := tr.count e

/-- A file-system abstraction for the idempotence claim: the set of paths
that exist, with `sf.write` creating the path when absent and otherwise
overwriting in place. -/
def insertPath (fs : List FP) (p : FP) : List FP :=
  if p ∈ fs then fs else fs ++ [p]

/-- Apply the successful writes of a trace to a file system. -/
def applyWrites (fs : List FP) (tr : List Ev) : List FP :=
  tr.foldl
    (fun acc e =>
      match e with
      | .write p _ _ true => insertPath acc p
      | _ => acc)
    fs

/-- The structural "valid input file" predicate: supported format, the file
exists, and at least one of the two decoders succeeds on it. -/
def GoodFile (w : World) (p : FP) : Bool :=
  is_supported_format p && w.fileExists p
    && ((w.torchLoad p).isSome || (w.librosaLoad p).isSome)

/-- A separation model satisfying the spec contract: four stereo stems with
the source's sample count (sample values are irrelevant to every claim). -/
def specModel (wav : Waveform) : List Waveform :=
  List.replicate 4 [List.replicate (wlen wav) 0, List.replicate (wlen wav) 0]

/-- A benign oracle: every file exists, torchaudio decodes to a 3-sample
stereo buffer, the model loads, every write succeeds. -/
def okWorld : World where
  fileExists := fun _ => true
  torchLoad := fun _ => some ([[1, 2, 3], [4, 5, 6]], 44100)
  librosaLoad := fun _ => none
  modelLoadOk := true
  model := specModel
  writeOk := fun _ => true
  dirExists := fun _ => true
  listDir := fun _ => []

/-- `okWorld`, except that the input file does not exist. -/
def missingWorld : World :=
  { okWorld with fileExists := fun _ => false }

/-- `okWorld`, except that torchaudio fails and librosa decodes the file to
a three-channel 2-D array. -/
def threeChanWorld : World :=
  { okWorld with
    torchLoad := fun _ => none
    librosaLoad := fun _ => some (.twoD [[0], [0], [0]], 8000) }

/-- `okWorld`, except that torchaudio fails and librosa decodes the file to
a mono 1-D array. -/
def monoFallbackWorld : World :=
  { okWorld with
    torchLoad := fun _ => none
    librosaLoad := fun _ => some (.oneD [7], 22050) }

/-- `okWorld`, except that both decoders fail. -/
def decodeFailWorld : World :=
  { okWorld with
    torchLoad := fun _ => none
    librosaLoad := fun _ => none }

/-- `okWorld`, except that writing the drums stem of "song" fails. -/
def drumsFailWorld : World :=
  { okWorld with writeOk := fun q => !(q.stem == "song_drums") }

/-- `okWorld`, except that writing the vocals stem of "track" fails. -/
def vocalsFailWorld : World :=
  { okWorld with writeOk := fun q => !(q.stem == "track_vocals") }

/-! ## Helper lemmas -/

lemma strLower_mem_formats {e : String} (he : e ∈ supported_formats) :
    strLower e = e := by
  simp only [supported_formats, List.mem_cons, List.not_mem_nil, or_false] at he
  rcases he with rfl | rfl | rfl | rfl | rfl | rfl | rfl <;> rfl

lemma fixChannels_length {wav : Waveform} (h : 1 ≤ wav.length) :
    (fixChannels wav).length = 2 := by
  unfold fixChannels
  by_cases h1 : wav.length = 1
  · simp [h1]
  · by_cases h2 : 2 < wav.length
    · simp [h1, h2]
      omega
    · simp [h1, h2]
      omega

lemma mem_candidates_aux {files : List String} {n : String} :
    ∀ exts : List String,
      n ∈ exts.foldr (fun ext acc =>
          files.filter (fun m => globMatch m ext)
            ++ files.filter (fun m => globMatch m (strUpper ext)) ++ acc) [] →
      ∃ e ∈ exts, globMatch n e = true ∨ globMatch n (strUpper e) = true := by
  intro exts
  induction exts with
  | nil => intro h; simp at h
  | cons e rest ih =>
    intro h
    simp only [List.foldr_cons, List.mem_append, List.mem_filter] at h
    rcases h with (⟨_, hm⟩ | ⟨_, hm⟩) | h
    · exact ⟨e, List.mem_cons_self e rest, Or.inl hm⟩
    · exact ⟨e, List.mem_cons_self e rest, Or.inr hm⟩
    · obtain ⟨e2, he2, hm⟩ := ih h
      exact ⟨e2, List.mem_cons_of_mem e he2, hm⟩

lemma mem_batch_candidates {files : List String} {n : String}
    (h : n ∈ batch_candidates files) :
    ∃ e ∈ supported_formats,
      globMatch n e = true ∨ globMatch n (strUpper e) = true :=
  mem_candidates_aux supported_formats h

lemma length_eq_four {α : Type} {l : List α} (h : l.length = 4) :
    ∃ a b c d, l = [a, b, c, d] := by
  rcases l with _ | ⟨a, l1⟩
  · simp at h
  rcases l1 with _ | ⟨b, l2⟩
  · simp at h
  rcases l2 with _ | ⟨c, l3⟩
  · simp at h
  rcases l3 with _ | ⟨d, l4⟩
  · simp at h
  rcases l4 with _ | ⟨e, l5⟩
  · exact ⟨a, b, c, d, rfl⟩
  · simp at h

lemma wlen_stem {s : Waveform} {L : Nat} (h2 : s.length = 2)
    (hc : ∀ c ∈ s, c.length = L) : wlen s = L := by
  rcases s with _ | ⟨c1, rest⟩
  · simp at h2
  · simpa [wlen] using hc c1 (List.mem_cons_self c1 rest)

lemma okWrites_append (a b : List Ev) :
    okWrites (a ++ b) = okWrites a ++ okWrites b := by
  simp [okWrites]

lemma allWritePaths_append (a b : List Ev) :
    allWritePaths (a ++ b) = allWritePaths a ++ allWritePaths b := by
  simp [allWritePaths]

lemma mkdirs_append (a b : List Ev) :
    mkdirs (a ++ b) = mkdirs a ++ mkdirs b := by
  simp [mkdirs]

lemma loadTrace_clean (w : World) (p : FP) :
    okWrites (load_audio w p).2 = [] ∧ allWritePaths (load_audio w p).2 = [] ∧
      mkdirs (load_audio w p).2 = [] := by
  rcases hT : w.torchLoad p with _ | ⟨wav, sr⟩
  · rcases hL : w.librosaLoad p with _ | ⟨a, sr⟩ <;>
      simp [load_audio, hT, hL, okWrites, allWritePaths, mkdirs]
  · simp [load_audio, hT, okWrites, allWritePaths, mkdirs]

lemma save_loop_four (w : World) (a b c d : Waveform) (dir : Dir) (base : String) :
    save_loop w [a, b, c, d] dir base stem_items =
      ([Ev.write (stemPath dir base "drums") (wlen a) "PCM_24"
          (w.writeOk (stemPath dir base "drums")),
        Ev.write (stemPath dir base "bass") (wlen b) "PCM_24"
          (w.writeOk (stemPath dir base "bass")),
        Ev.write (stemPath dir base "other") (wlen c) "PCM_24"
          (w.writeOk (stemPath dir base "other")),
        Ev.write (stemPath dir base "vocals") (wlen d) "PCM_24"
          (w.writeOk (stemPath dir base "vocals"))], true) := rfl

lemma save_loop_no_mkdir (w : World) (stems : List Waveform) (dir : Dir)
    (base : String) :
    ∀ items, mkdirs (save_loop w stems dir base items).1 = [] := by
  intro items
  induction items with
  | nil => simp [save_loop, mkdirs]
  | cons it rest ih =>
    rcases it with ⟨i, name⟩
    rcases hg : stems[i]? with _ | s
    · simp [save_loop, hg, mkdirs]
    · simp [save_loop, hg, mkdirs] at ih ⊢
      exact ih

lemma after_load_spec {w : World} {p : FP} {wav : Waveform} {sr : Nat}
    (D : Dir) (hM : ModelContract w.model)
    (hok : (load_audio w p).1 = Except.ok (wav, sr)) :
    after_load w p D =
      (true, (load_audio w p).2 ++
        Ev.mkdir D ::
          [Ev.write (stemPath D p.stem "drums") (wlen wav) "PCM_24"
              (w.writeOk (stemPath D p.stem "drums")),
            Ev.write (stemPath D p.stem "bass") (wlen wav) "PCM_24"
              (w.writeOk (stemPath D p.stem "bass")),
            Ev.write (stemPath D p.stem "other") (wlen wav) "PCM_24"
              (w.writeOk (stemPath D p.stem "other")),
            Ev.write (stemPath D p.stem "vocals") (wlen wav) "PCM_24"
              (w.writeOk (stemPath D p.stem "vocals"))]) := by
  obtain ⟨h4, hsh⟩ := hM wav
  obtain ⟨s0, s1, s2, s3, hstems⟩ := length_eq_four h4
  have hm0 : s0 ∈ w.model wav := by rw [hstems]; simp
  have hm1 : s1 ∈ w.model wav := by rw [hstems]; simp
  have hm2 : s2 ∈ w.model wav := by rw [hstems]; simp
  have hm3 : s3 ∈ w.model wav := by rw [hstems]; simp
  have hw0 : wlen s0 = wlen wav := wlen_stem (hsh s0 hm0).1 (hsh s0 hm0).2
  have hw1 : wlen s1 = wlen wav := wlen_stem (hsh s1 hm1).1 (hsh s1 hm1).2
  have hw2 : wlen s2 = wlen wav := wlen_stem (hsh s2 hm2).1 (hsh s2 hm2).2
  have hw3 : wlen s3 = wlen wav := wlen_stem (hsh s3 hm3).1 (hsh s3 hm3).2
  rcases hl : load_audio w p with ⟨res, ltr⟩
  rw [hl] at hok
  simp only at hok
  subst hok
  simp [after_load, hl, save_stems, hstems, save_loop_four, hw0, hw1, hw2, hw3]

lemma load_audio_cases (w : World) (p : FP) :
    (∃ wav sr, w.torchLoad p = some (wav, sr) ∧
        load_audio w p = (Except.ok (fixChannels wav, sr), [Ev.torchTry p])) ∨
    (∃ a sr, w.torchLoad p = none ∧ w.librosaLoad p = some (a, sr) ∧
        load_audio w p =
          (Except.ok (librosaFix a, sr), [Ev.torchTry p, Ev.librosaTry p])) ∨
    (w.torchLoad p = none ∧ w.librosaLoad p = none ∧
        load_audio w p =
          (Except.error "Failed to load audio with both torchaudio and librosa",
            [Ev.torchTry p, Ev.librosaTry p])) := by
  rcases hT : w.torchLoad p with _ | ⟨wav, sr⟩
  · rcases hL : w.librosaLoad p with _ | ⟨a, sr⟩
    · exact Or.inr (Or.inr ⟨rfl, rfl, by simp [load_audio, hT, hL]⟩)
    · exact Or.inr (Or.inl ⟨a, sr, rfl, rfl, by simp [load_audio, hT, hL]⟩)
  · exact Or.inl ⟨wav, sr, rfl, by simp [load_audio, hT]⟩

lemma after_load_true {w : World} {p : FP} {D : Dir}
    (h : (after_load w p D).1 = true) :
    ∃ wav sr, (load_audio w p).1 = Except.ok (wav, sr) := by
  rcases load_audio_cases w p with ⟨wav, sr, hT, hla⟩ | ⟨a, sr, hT, hL, hla⟩ |
      ⟨hT, hL, hla⟩
  · exact ⟨fixChannels wav, sr, by rw [hla]⟩
  · exact ⟨librosaFix a, sr, by rw [hla]⟩
  · rw [after_load, hla] at h
    simp at h

lemma mkdirs_cons_mkdir (D : Dir) (tr : List Ev) :
    mkdirs (Ev.mkdir D :: tr) = D :: mkdirs tr := by
  simp [mkdirs]

lemma mkdirs_save_stems (w : World) (stems : List Waveform) (D : Dir)
    (base : String) : mkdirs (save_stems w stems D base).1 = [D] := by
  simp only [save_stems]
  rw [mkdirs_cons_mkdir, save_loop_no_mkdir]

lemma after_load_mkdirs {w : World} {p : FP} {D : Dir} {d : Dir}
    (h : d ∈ mkdirs (after_load w p D).2) : d = D := by
  rcases load_audio_cases w p with ⟨wav, sr, hT, hla⟩ | ⟨a, sr, hT, hL, hla⟩ |
      ⟨hT, hL, hla⟩
  · simp only [after_load, hla] at h
    rw [mkdirs_append, mkdirs_save_stems] at h
    simp [mkdirs] at h
    exact h
  · simp only [after_load, hla] at h
    rw [mkdirs_append, mkdirs_save_stems] at h
    simp [mkdirs] at h
    exact h
  · simp only [after_load, hla] at h
    simp [mkdirs] at h

lemma split_true {w : World} {st : SState} {p : FP} {o? : Option Dir}
    (h : (split_audio w st p o?).1 = true) :
    is_supported_format p = true ∧ w.fileExists p = true ∧
      (st.modelLoaded = true ∨ w.modelLoadOk = true) ∧
      ∃ wav sr, (load_audio w p).1 = Except.ok (wav, sr) := by
  cases hs : is_supported_format p with
  | false => simp [split_audio, hs] at h
  | true =>
    cases he : w.fileExists p with
    | false => simp [split_audio, hs, he] at h
    | true =>
      cases hml : st.modelLoaded with
      | true =>
        refine ⟨rfl, rfl, Or.inl rfl, ?_⟩
        simp only [split_audio, hs, he, hml] at h
        simp at h
        exact after_load_true h
      | false =>
        cases hok : w.modelLoadOk with
        | false => simp [split_audio, hs, he, hml, hok] at h
        | true =>
          refine ⟨rfl, rfl, Or.inr rfl, ?_⟩
          simp only [split_audio, hs, he, hml, hok] at h
          simp at h
          exact after_load_true h

lemma split_audio_happy {w : World} {st : SState} {p : FP} (o? : Option Dir)
    (hs : is_supported_format p = true) (he : w.fileExists p = true)
    (hm : st.modelLoaded = true ∨ w.modelLoadOk = true) :
    ∃ pre : List Ev,
      (pre = [Ev.existsCheck p] ∨ pre = [Ev.existsCheck p, Ev.modelLoad]) ∧
      split_audio w st p o? =
        ((after_load w p (o?.getD (p.parent ++ [p.stem ++ "_stems"]))).1, ⟨true⟩,
          pre ++ (after_load w p (o?.getD (p.parent ++ [p.stem ++ "_stems"]))).2) := by
  rcases st with ⟨ml⟩
  cases ml with
  | true =>
    refine ⟨[Ev.existsCheck p], Or.inl rfl, ?_⟩
    simp [split_audio, hs, he]
  | false =>
    rcases hm with hm | hm
    · simp at hm
    · refine ⟨[Ev.existsCheck p, Ev.modelLoad], Or.inr rfl, ?_⟩
      simp [split_audio, hs, he, hm]

lemma pre_clean {p : FP} {pre : List Ev}
    (h : pre = [Ev.existsCheck p] ∨ pre = [Ev.existsCheck p, Ev.modelLoad]) :
    okWrites pre = [] ∧ allWritePaths pre = [] ∧ mkdirs pre = [] := by
  rcases h with rfl | rfl <;> simp [okWrites, allWritePaths, mkdirs]

lemma mem_insertPath_self (fs : List FP) (p : FP) : p ∈ insertPath fs p := by
  unfold insertPath
  by_cases h : p ∈ fs
  · simp [h]
  · simp [h]

lemma mem_insertPath {fs : List FP} {q : FP} (p : FP) (h : q ∈ fs) :
    q ∈ insertPath fs p := by
  unfold insertPath
  by_cases hp : p ∈ fs
  · simpa [hp]
  · simp [hp]
    exact Or.inl h

lemma insertPath_of_mem {fs : List FP} {p : FP} (h : p ∈ fs) :
    insertPath fs p = fs := by
  simp [insertPath, h]

lemma mem_applyWrites {q : FP} :
    ∀ (tr : List Ev) (fs : List FP), q ∈ fs → q ∈ applyWrites fs tr := by
  intro tr
  induction tr with
  | nil => intro fs h; simpa [applyWrites]
  | cons e tr ih =>
    intro fs h
    cases e with
    | write p n s ok =>
      cases ok with
      | true => exact ih _ (mem_insertPath p h)
      | false => exact ih _ h
    | existsCheck p => exact ih _ h
    | modelLoad => exact ih _ h
    | torchTry p => exact ih _ h
    | librosaTry p => exact ih _ h
    | mkdir d => exact ih _ h

lemma produced_mem_applyWrites {q : FP} :
    ∀ (tr : List Ev) (fs : List FP), q ∈ producedPaths tr →
      q ∈ applyWrites fs tr := by
  intro tr
  induction tr with
  | nil => intro fs h; simp [producedPaths] at h
  | cons e tr ih =>
    intro fs h
    cases e with
    | write p n s ok =>
      cases ok with
      | true =>
        rw [show producedPaths (Ev.write p n s true :: tr) = p :: producedPaths tr
            from rfl] at h
        rcases List.mem_cons.mp h with rfl | h2
        · exact mem_applyWrites tr _ (mem_insertPath_self fs q)
        · exact ih _ h2
      | false => exact ih _ h
    | existsCheck p => exact ih _ h
    | modelLoad => exact ih _ h
    | torchTry p => exact ih _ h
    | librosaTry p => exact ih _ h
    | mkdir d => exact ih _ h

lemma applyWrites_eq_self :
    ∀ (tr : List Ev) (fs : List FP),
      (∀ q ∈ producedPaths tr, q ∈ fs) → applyWrites fs tr = fs := by
  intro tr
  induction tr with
  | nil => intro fs _; rfl
  | cons e tr ih =>
    intro fs h
    cases e with
    | write p n s ok =>
      cases ok with
      | true =>
        have hp : p ∈ fs := h p (by rw [show producedPaths
          (Ev.write p n s true :: tr) = p :: producedPaths tr from rfl]; simp)
        have hstep : applyWrites fs (Ev.write p n s true :: tr)
            = applyWrites (insertPath fs p) tr := rfl
        rw [hstep, insertPath_of_mem hp]
        exact ih fs fun q hq => h q (by
          rw [show producedPaths (Ev.write p n s true :: tr)
            = p :: producedPaths tr from rfl]
          exact List.mem_cons_of_mem p hq)
      | false => exact ih fs fun q hq => h q hq
    | existsCheck p => exact ih fs fun q hq => h q hq
    | modelLoad => exact ih fs fun q hq => h q hq
    | torchTry p => exact ih fs fun q hq => h q hq
    | librosaTry p => exact ih fs fun q hq => h q hq
    | mkdir d => exact ih fs fun q hq => h q hq

lemma applyWrites_idem (fs : List FP) (tr : List Ev) :
    applyWrites (applyWrites fs tr) tr = applyWrites fs tr :=
  applyWrites_eq_self tr _ fun _ hq => produced_mem_applyWrites tr fs hq

lemma specModel_contract : ModelContract specModel := by
  intro wav
  constructor
  · simp [specModel]
  · intro s hs
    have hseq : s = [List.replicate (wlen wav) 0, List.replicate (wlen wav) 0] :=
      List.eq_of_mem_replicate hs
    subst hseq
    refine ⟨by simp, ?_⟩
    intro c hc
    rcases List.mem_cons.mp hc with rfl | hc2
    · simp
    · rcases List.mem_cons.mp hc2 with rfl | hc3
      · simp
      · simp at hc3

lemma split_run_true {w : World} {st : SState} {p : FP} {o? : Option Dir}
    (hM : ModelContract w.model)
    (hs : is_supported_format p = true) (he : w.fileExists p = true)
    (hm : st.modelLoaded = true ∨ w.modelLoadOk = true)
    {wav : Waveform} {sr : Nat}
    (hok : (load_audio w p).1 = Except.ok (wav, sr)) :
    (split_audio w st p o?).1 = true := by
  obtain ⟨pre, hpre, heq⟩ := split_audio_happy o? hs he hm
  have hal := after_load_spec (o?.getD (p.parent ++ [p.stem ++ "_stems"])) hM hok
  rw [heq, hal]

lemma split_run_trace {w : World} {st : SState} {p : FP} {o? : Option Dir}
    (hM : ModelContract w.model)
    (hrun : (split_audio w st p o?).1 = true) :
    ∃ wav sr pre,
      (load_audio w p).1 = Except.ok (wav, sr) ∧
      okWrites pre = [] ∧ allWritePaths pre = [] ∧ mkdirs pre = [] ∧
      (split_audio w st p o?).2.2 =
        pre ++ ((load_audio w p).2 ++
          Ev.mkdir (o?.getD (p.parent ++ [p.stem ++ "_stems"])) ::
          [Ev.write (stemPath (o?.getD (p.parent ++ [p.stem ++ "_stems"]))
              p.stem "drums") (wlen wav) "PCM_24"
              (w.writeOk (stemPath (o?.getD (p.parent ++ [p.stem ++ "_stems"]))
                p.stem "drums")),
            Ev.write (stemPath (o?.getD (p.parent ++ [p.stem ++ "_stems"]))
              p.stem "bass") (wlen wav) "PCM_24"
              (w.writeOk (stemPath (o?.getD (p.parent ++ [p.stem ++ "_stems"]))
                p.stem "bass")),
            Ev.write (stemPath (o?.getD (p.parent ++ [p.stem ++ "_stems"]))
              p.stem "other") (wlen wav) "PCM_24"
              (w.writeOk (stemPath (o?.getD (p.parent ++ [p.stem ++ "_stems"]))
                p.stem "other")),
            Ev.write (stemPath (o?.getD (p.parent ++ [p.stem ++ "_stems"]))
              p.stem "vocals") (wlen wav) "PCM_24"
              (w.writeOk (stemPath (o?.getD (p.parent ++ [p.stem ++ "_stems"]))
                p.stem "vocals"))]) := by
  obtain ⟨hs, he, hm, wav, sr, hok⟩ := split_true hrun
  obtain ⟨pre, hpre, heq⟩ := split_audio_happy o? hs he hm
  obtain ⟨hp1, hp2, hp3⟩ := pre_clean hpre
  have hal := after_load_spec (o?.getD (p.parent ++ [p.stem ++ "_stems"])) hM hok
  refine ⟨wav, sr, pre, hok, hp1, hp2, hp3, ?_⟩
  rw [heq]
  simp only [hal]

lemma mkdirs_cons_other (e : Ev) (tr : List Ev) (he : ∀ D, e ≠ Ev.mkdir D) :
    mkdirs (e :: tr) = mkdirs tr := by
  cases e with
  | mkdir D => exact absurd rfl (he D)
  | existsCheck p => simp [mkdirs]
  | modelLoad => simp [mkdirs]
  | torchTry p => simp [mkdirs]
  | librosaTry p => simp [mkdirs]
  | write p n s b => simp [mkdirs]

lemma split_mkdirs_sub {w : World} {st : SState} {p : FP} {o? : Option Dir}
    {d : Dir} (h : d ∈ mkdirs (split_audio w st p o?).2.2) :
    d = o?.getD (p.parent ++ [p.stem ++ "_stems"]) := by
  cases hs : is_supported_format p with
  | false => simp [split_audio, hs, mkdirs] at h
  | true =>
    cases he : w.fileExists p with
    | false => simp [split_audio, hs, he, mkdirs] at h
    | true =>
      by_cases hm : st.modelLoaded = true ∨ w.modelLoadOk = true
      · obtain ⟨pre, hpre, heq⟩ := split_audio_happy o? hs he hm
        rw [heq] at h
        simp only [mkdirs_append] at h
        rcases List.mem_append.mp h with h | h
        · rw [(pre_clean hpre).2.2] at h
          simp at h
        · exact after_load_mkdirs h
      · have h1 : st.modelLoaded = false := by
          cases hx : st.modelLoaded
          · rfl
          · exact absurd (Or.inl hx) hm
        have h2 : w.modelLoadOk = false := by
          cases hx : w.modelLoadOk
          · rfl
          · exact absurd (Or.inr hx) hm
        simp [split_audio, hs, he, h1, h2, mkdirs] at h

lemma batch_loop_mkdirs {w : World} {inDir outDir : Dir} :
    ∀ (names : List String) (st : SState) (d : Dir),
      d ∈ mkdirs (batch_loop w st inDir outDir names).2.2 →
      ∃ n ∈ names, d = outDir ++ [pyStem n] := by
  intro names
  induction names with
  | nil => intro st d h; simp [batch_loop, mkdirs] at h
  | cons n rest ih =>
    intro st d h
    simp only [batch_loop] at h
    rw [mkdirs_append] at h
    rcases List.mem_append.mp h with h | h
    · have hd := split_mkdirs_sub h
      exact ⟨n, List.mem_cons_self n rest, by simpa [nameToFP] using hd⟩
    · obtain ⟨n2, hn2, hd2⟩ := ih _ _ h
      exact ⟨n2, List.mem_cons_of_mem n hn2, hd2⟩

/-! ## Claim theorems -/

/-- C4: the format gate accepts a file path exactly when its extension,
compared case-insensitively, is one of the seven supported extensions; every
other extension is rejected. -/
theorem C4_format_gate (p : FP) :
    is_supported_format p = true ↔
      ∃ e ∈ supported_formats, strLower p.suffix = strLower e := by
  constructor
  · intro h
    have hm : strLower p.suffix ∈ supported_formats := by
      simpa [is_supported_format] using h
    exact ⟨strLower p.suffix, hm, (strLower_mem_formats hm).symm⟩
  · rintro ⟨e, he, heq⟩
    have hme : strLower p.suffix ∈ supported_formats := by
      rw [heq, strLower_mem_formats he]
      exact he
    simpa [is_supported_format] using hme

/-- C2 as stated is false: on the fallback decode path, a three-channel
source is returned with three channels, not reduced to two. -/
theorem C2_counterexample :
    (load_audio threeChanWorld ⟨["in"], "song", ".mp3"⟩).1
        = Except.ok ([[0], [0], [0]], 8000) ∧
      ([[0], [0], [0]] : Waveform).length ≠ 2 := by
  exact ⟨rfl, by decide⟩

/-- C2 (amended): on the primary decode path every source with at least one
channel is normalized to exactly 2 channels (mono duplicated, extra channels
dropped); on the fallback path a mono source is duplicated to stereo, but a
2-D source keeps all of its channels unchanged. -/
theorem C2_amended (w : World) (p : FP) :
    (∀ wav sr, w.torchLoad p = some (wav, sr) → 1 ≤ wav.length →
      (load_audio w p).1 = Except.ok (fixChannels wav, sr) ∧
        (fixChannels wav).length = 2) ∧
    (∀ xs sr, w.torchLoad p = none → w.librosaLoad p = some (.oneD xs, sr) →
      (load_audio w p).1 = Except.ok ([xs, xs], sr) ∧
        ([xs, xs] : Waveform).length = 2) ∧
    (∀ cs sr, w.torchLoad p = none → w.librosaLoad p = some (.twoD cs, sr) →
      (load_audio w p).1 = Except.ok (cs, sr)) := by
  refine ⟨fun wav sr h h1 => ⟨?_, fixChannels_length h1⟩,
    fun xs sr h hl => ⟨?_, rfl⟩, fun cs sr h hl => ?_⟩
  · simp [load_audio, h]
  · simp [load_audio, h, hl, librosaFix]
  · simp [load_audio, h, hl, librosaFix]

/-- Witness for C2 (amended) at a concrete mono fallback decode. -/
theorem C2_amended_witness :
    (load_audio monoFallbackWorld ⟨["in"], "song", ".mp3"⟩).1
      = Except.ok ([[7], [7]], 22050) :=
  ((C2_amended monoFallbackWorld ⟨["in"], "song", ".mp3"⟩).2.1 [7] 22050
    rfl rfl).1

/-- C7: when the primary decode fails, exactly one librosa fallback attempt
is made; a successful fallback returns its audio normally, and an error is
raised exactly when the fallback fails too. -/
theorem C7_fallback (w : World) (p : FP) (h : w.torchLoad p = none) :
    countEv (load_audio w p).2 (.librosaTry p) = 1 ∧
    (∀ a sr, w.librosaLoad p = some (a, sr) →
      (load_audio w p).1 = Except.ok (librosaFix a, sr)) ∧
    ((∃ msg, (load_audio w p).1 = Except.error msg) ↔
      w.librosaLoad p = none) := by
  rcases hl : w.librosaLoad p with _ | ⟨a, sr⟩
  · refine ⟨?_, ?_, ?_⟩
    · simp [load_audio, h, hl, countEv]
    · intro a sr h2
      simp at h2
    · simp [load_audio, h, hl]
  · refine ⟨?_, ?_, ?_⟩
    · simp [load_audio, h, hl, countEv]
    · intro a2 sr2 h2
      simp only [Option.some.injEq, Prod.mk.injEq] at h2
      obtain ⟨rfl, rfl⟩ := h2
      simp [load_audio, h, hl]
    · simp [load_audio, h, hl]

/-- Witness for C7 at a concrete failed torchaudio decode. -/
theorem C7_fallback_witness :
    countEv (load_audio monoFallbackWorld ⟨["in"], "song", ".mp3"⟩).2
        (.librosaTry ⟨["in"], "song", ".mp3"⟩) = 1 :=
  (C7_fallback monoFallbackWorld ⟨["in"], "song", ".mp3"⟩ rfl).1

/-- C6: an unsupported extension is rejected with `False` before any I/O
event at all (no existence check, no model load, no decode, no write), and a
missing input path yields `False` with the existence check as the only
event. -/
theorem C6_gate (w : World) (st : SState) (p : FP) (o? : Option Dir) :
    (is_supported_format p = false → split_audio w st p o? = (false, st, [])) ∧
    (is_supported_format p = true → w.fileExists p = false →
      split_audio w st p o? = (false, st, [Ev.existsCheck p])) := by
  constructor
  · intro h
    simp [split_audio, h]
  · intro h1 h2
    simp [split_audio, h1, h2]

/-- Witness for C6 at a concrete unsupported and a concrete missing input. -/
theorem C6_gate_witness :
    split_audio okWorld ⟨false⟩ ⟨["d"], "notes", ".txt"⟩ none
        = (false, ⟨false⟩, []) ∧
      split_audio missingWorld ⟨false⟩ ⟨["d"], "song", ".mp3"⟩ none
        = (false, ⟨false⟩, [Ev.existsCheck ⟨["d"], "song", ".mp3"⟩]) :=
  ⟨(C6_gate okWorld ⟨false⟩ ⟨["d"], "notes", ".txt"⟩ none).1 rfl,
    (C6_gate missingWorld ⟨false⟩ ⟨["d"], "song", ".mp3"⟩ none).2 rfl rfl⟩

/-- C10: batch enumeration only matches the all-lowercase and all-uppercase
forms of each supported extension, so `song.Mp3` is never enumerated even
though the single-file format gate accepts it. -/
theorem C10_mixed_case (files : List String) :
    is_supported_format (nameToFP ["d"] "song.Mp3") = true ∧
      "song.Mp3" ∉ batch_candidates files := by
  refine ⟨by decide, fun h => ?_⟩
  obtain ⟨e, he, hm⟩ := mem_batch_candidates h
  simp only [supported_formats, List.mem_cons, List.not_mem_nil, or_false] at he
  rcases he with rfl | rfl | rfl | rfl | rfl | rfl | rfl <;>
    rcases hm with hm | hm <;> revert hm <;> decide

/-- C1 as stated is false: a run in which one stem write fails still returns
`True` (a "successful run" by the code's own signal) but produces only 3 of
the 4 output files. -/
theorem C1_counterexample :
    (split_audio vocalsFailWorld ⟨false⟩ ⟨["in"], "track", ".mp3"⟩
        (some ["out"])).1 = true ∧
      (producedPaths (split_audio vocalsFailWorld ⟨false⟩
        ⟨["in"], "track", ".mp3"⟩ (some ["out"])).2.2).length = 3 := by
  exact ⟨rfl, rfl⟩

/-- C1 (amended): in every run of `split_audio` that returns `True` and in
which every stem write succeeds, exactly 4 output files are written — one per
stem name in drums, bass, other, vocals, named `{base}_{stem}.wav`, 24-bit
PCM, with the loaded input's sample count — and the output directory is
created.  (Assumes the external separation model meets its spec contract.) -/
theorem C1_amended (w : World) (st : SState) (p : FP) (o? : Option Dir)
    (hM : ModelContract w.model) (hw : ∀ q, w.writeOk q = true)
    (hrun : (split_audio w st p o?).1 = true) :
    ∃ wav sr,
      (load_audio w p).1 = Except.ok (wav, sr) ∧
      okWrites (split_audio w st p o?).2.2 =
        stem_items.map (fun it =>
          Ev.write (stemPath (o?.getD (p.parent ++ [p.stem ++ "_stems"]))
            p.stem it.2) (wlen wav) "PCM_24" true) ∧
      mkdirs (split_audio w st p o?).2.2 =
        [o?.getD (p.parent ++ [p.stem ++ "_stems"])] := by
  obtain ⟨wav, sr, pre, hok, hp1, hp2, hp3, htr⟩ := split_run_trace hM hrun
  refine ⟨wav, sr, hok, ?_, ?_⟩
  · rw [htr, okWrites_append, okWrites_append, hp1, (loadTrace_clean w p).1]
    simp [okWrites, hw, stem_items]
  · rw [htr, mkdirs_append, mkdirs_append, hp3, (loadTrace_clean w p).2.2]
    simp [mkdirs]

/-- Witness for C1 (amended) at a concrete benign run. -/
theorem C1_amended_witness :
    ∃ wav sr,
      (load_audio okWorld ⟨["in"], "song", ".mp3"⟩).1 = Except.ok (wav, sr) ∧
      okWrites (split_audio okWorld ⟨false⟩ ⟨["in"], "song", ".mp3"⟩
          (some ["out"])).2.2 =
        stem_items.map (fun it =>
          Ev.write (stemPath ((some ["out"]).getD
            (["in"] ++ ["song" ++ "_stems"])) "song" it.2) (wlen wav)
            "PCM_24" true) ∧
      mkdirs (split_audio okWorld ⟨false⟩ ⟨["in"], "song", ".mp3"⟩
          (some ["out"])).2.2 =
        [(some ["out"]).getD (["in"] ++ ["song" ++ "_stems"])] :=
  C1_amended okWorld ⟨false⟩ ⟨["in"], "song", ".mp3"⟩ (some ["out"])
    specModel_contract (fun _ => rfl) rfl

/-- C5 as stated is false: a failing stem write does not make `split_audio`
return `False` — the run below fails to write the drums stem (3 of 4 writes
succeed) yet `split_audio` returns `True`. -/
theorem C5_counterexample :
    (split_audio drumsFailWorld ⟨false⟩ ⟨["in"], "song", ".mp3"⟩
        (some ["out"])).1 = true ∧
      (producedPaths (split_audio drumsFailWorld ⟨false⟩
        ⟨["in"], "song", ".mp3"⟩ (some ["out"])).2.2).length = 3 ∧
      (allWritePaths (split_audio drumsFailWorld ⟨false⟩
        ⟨["in"], "song", ".mp3"⟩ (some ["out"])).2.2).length = 4 := by
  exact ⟨rfl, rfl, rfl⟩

/-- C5 (amended): a stem-write failure is caught per stem inside
`save_stems` and converted to a logged message only; all four writes are
still attempted, and `split_audio` returns `True` for that file regardless
of which writes fail. -/
theorem C5_amended (w : World) (st : SState) (p : FP) (o? : Option Dir)
    (hM : ModelContract w.model)
    (hs : is_supported_format p = true) (he : w.fileExists p = true)
    (hm : st.modelLoaded = true ∨ w.modelLoadOk = true)
    (wav : Waveform) (sr : Nat)
    (hok : (load_audio w p).1 = Except.ok (wav, sr)) :
    (split_audio w st p o?).1 = true ∧
      (allWritePaths (split_audio w st p o?).2.2).length = 4 := by
  have hrun : (split_audio w st p o?).1 = true :=
    split_run_true hM hs he hm hok
  refine ⟨hrun, ?_⟩
  obtain ⟨wav2, sr2, pre, hok2, hp1, hp2, hp3, htr⟩ := split_run_trace hM hrun
  rw [htr, allWritePaths_append, allWritePaths_append, hp2,
    (loadTrace_clean w p).2.1]
  simp [allWritePaths]

/-- Witness for C5 (amended) at a concrete run whose drums write fails. -/
theorem C5_amended_witness :
    (split_audio drumsFailWorld ⟨false⟩ ⟨["in"], "song", ".mp3"⟩
        (some ["out"])).1 = true ∧
      (allWritePaths (split_audio drumsFailWorld ⟨false⟩
        ⟨["in"], "song", ".mp3"⟩ (some ["out"])).2.2).length = 4 :=
  C5_amended drumsFailWorld ⟨false⟩ ⟨["in"], "song", ".mp3"⟩ (some ["out"])
    specModel_contract rfl rfl (Or.inr rfl) [[1, 2, 3], [4, 5, 6]] 44100 rfl

/-- C8: the attempted output paths of a run that returns `True` are exactly
the four stem paths — a pure function of the output directory and the input
basename, with no timestamp or random component — and re-applying the same
run's writes to the resulting file system changes nothing (idempotent
overwriting). -/
theorem C8_deterministic (w : World) (st : SState) (p : FP) (o? : Option Dir)
    (fs : List FP) (hM : ModelContract w.model)
    (hrun : (split_audio w st p o?).1 = true) :
    allWritePaths (split_audio w st p o?).2.2 =
      stem_items.map (fun it =>
        stemPath (o?.getD (p.parent ++ [p.stem ++ "_stems"])) p.stem it.2) ∧
    applyWrites (applyWrites fs (split_audio w st p o?).2.2)
        (split_audio w st p o?).2.2
      = applyWrites fs (split_audio w st p o?).2.2 := by
  obtain ⟨wav, sr, pre, hok, hp1, hp2, hp3, htr⟩ := split_run_trace hM hrun
  constructor
  · rw [htr, allWritePaths_append, allWritePaths_append, hp2,
      (loadTrace_clean w p).2.1]
    simp [allWritePaths, stem_items]
  · exact applyWrites_idem fs _

/-- Witness for C8 at a concrete benign run. -/
theorem C8_deterministic_witness :
    allWritePaths (split_audio okWorld ⟨false⟩ ⟨["in"], "song", ".mp3"⟩
        (some ["out"])).2.2 =
      stem_items.map (fun it =>
        stemPath ((some ["out"]).getD (["in"] ++ ["song" ++ "_stems"]))
          "song" it.2) ∧
    applyWrites (applyWrites [] (split_audio okWorld ⟨false⟩
        ⟨["in"], "song", ".mp3"⟩ (some ["out"])).2.2)
        (split_audio okWorld ⟨false⟩ ⟨["in"], "song", ".mp3"⟩
          (some ["out"])).2.2
      = applyWrites [] (split_audio okWorld ⟨false⟩
          ⟨["in"], "song", ".mp3"⟩ (some ["out"])).2.2 :=
  C8_deterministic okWorld ⟨false⟩ ⟨["in"], "song", ".mp3"⟩ (some ["out"]) []
    specModel_contract rfl

/-- C9: with no output directory given, a single-file run makes its stems
directory `{parent}/{basename}_stems`, and a batch run places each file's
stems under `{inputDir}/stems/{basename}`. -/
theorem C9_default_dirs (w : World) (st st2 : SState) (p : FP) (inDir : Dir)
    (hM : ModelContract w.model)
    (hrun : (split_audio w st p none).1 = true) :
    mkdirs (split_audio w st p none).2.2 =
      [p.parent ++ [p.stem ++ "_stems"]] ∧
    ∀ d ∈ mkdirs (batch_split w st2 inDir none).2.2,
      ∃ n ∈ batch_candidates (w.listDir inDir),
        d = inDir ++ ["stems", pyStem n] := by
  constructor
  · obtain ⟨wav, sr, pre, hok, hp1, hp2, hp3, htr⟩ := split_run_trace hM hrun
    rw [htr, mkdirs_append, mkdirs_append, hp3, (loadTrace_clean w p).2.2]
    simp [mkdirs]
  · intro d h
    cases hd : w.dirExists inDir with
    | false => simp [batch_split, hd, mkdirs] at h
    | true =>
      by_cases hempty : (batch_candidates (w.listDir inDir)).isEmpty = true
      · simp [batch_split, hd, hempty, mkdirs] at h
      · simp only [batch_split, hd, hempty] at h
        simp at h
        obtain ⟨n, hn, hd2⟩ := batch_loop_mkdirs _ _ _ h
        exact ⟨n, hn, by rw [hd2]; simp⟩

/-- Witness for C9 at a concrete run and batch directory. -/
theorem C9_default_dirs_witness :
    mkdirs (split_audio okWorld ⟨false⟩ ⟨["in"], "song", ".mp3"⟩ none).2.2 =
      [["in"] ++ ["song" ++ "_stems"]] ∧
    ∀ d ∈ mkdirs (batch_split okWorld ⟨false⟩ ["d"] none).2.2,
      ∃ n ∈ batch_candidates (okWorld.listDir ["d"]),
        d = ["d"] ++ ["stems", pyStem n] :=
  C9_default_dirs okWorld ⟨false⟩ ⟨false⟩ ⟨["in"], "song", ".mp3"⟩ ["d"]
    specModel_contract rfl

lemma split_true_good {w : World} {st : SState} {p : FP} {o? : Option Dir}
    (h : (split_audio w st p o?).1 = true) : GoodFile w p = true := by
  obtain ⟨hs, he, hm, wav, sr, hok⟩ := split_true h
  rcases load_audio_cases w p with ⟨wav2, sr2, hT, hla⟩ | ⟨a, sr2, hT, hL, hla⟩ |
      ⟨hT, hL, hla⟩
  · simp [GoodFile, hs, he, hT]
  · simp [GoodFile, hs, he, hT, hL]
  · rw [hla] at hok
    simp at hok

lemma batch_loop_append (w : World) (inDir outDir : Dir) :
    ∀ (xs ys : List String) (st : SState),
      (batch_loop w st inDir outDir (xs ++ ys)).1
          = (batch_loop w st inDir outDir xs).1
            + (batch_loop w (batch_loop w st inDir outDir xs).2.1
                inDir outDir ys).1 ∧
      (batch_loop w st inDir outDir (xs ++ ys)).2.1
          = (batch_loop w (batch_loop w st inDir outDir xs).2.1
              inDir outDir ys).2.1 ∧
      (batch_loop w st inDir outDir (xs ++ ys)).2.2
          = (batch_loop w st inDir outDir xs).2.2
            ++ (batch_loop w (batch_loop w st inDir outDir xs).2.1
                inDir outDir ys).2.2 := by
  intro xs
  induction xs with
  | nil => intro ys st; simp [batch_loop]
  | cons n rest ih =>
    intro ys st
    obtain ⟨ih1, ih2, ih3⟩ := ih ys
      (split_audio w st (nameToFP inDir n)
        (some (outDir ++ [(nameToFP inDir n).stem]))).2.1
    simp only [List.cons_append, batch_loop, List.append_eq]
    refine ⟨?_, ?_, ?_⟩
    · rw [ih1]
      omega
    · rw [ih2]
    · rw [ih3, List.append_assoc]

lemma batch_loop_le (w : World) (inDir outDir : Dir) :
    ∀ (names : List String) (st : SState),
      (batch_loop w st inDir outDir names).1
        ≤ names.countP (fun n => GoodFile w (nameToFP inDir n)) := by
  intro names
  induction names with
  | nil => intro st; simp [batch_loop]
  | cons n rest ih =>
    intro st
    simp only [batch_loop, List.countP_cons]
    cases hb : (split_audio w st (nameToFP inDir n)
        (some (outDir ++ [(nameToFP inDir n).stem]))).1 with
    | true =>
      have hg := split_true_good hb
      have hrec := ih (split_audio w st (nameToFP inDir n)
        (some (outDir ++ [(nameToFP inDir n).stem]))).2.1
      simp [hb, hg]
      omega
    | false =>
      have hrec := ih (split_audio w st (nameToFP inDir n)
        (some (outDir ++ [(nameToFP inDir n).stem]))).2.1
      simp [hb]
      omega

lemma count_filter_eq {α : Type} [DecidableEq α] (p : α → Bool) (a : α)
    (l : List α) : (l.filter p).count a = if p a then l.count a else 0 := by
  by_cases h : p a = true
  · rw [if_pos h]
    exact List.count_filter h
  · rw [if_neg h]
    rw [List.count_eq_zero]
    intro hmem
    exact h (List.mem_filter.mp hmem).2

lemma count_candidates_aux (files : List String) (n : String) :
    ∀ exts : List String,
      ((exts.foldr (fun ext acc =>
          files.filter (fun m => globMatch m ext)
            ++ files.filter (fun m => globMatch m (strUpper ext)) ++ acc)
          []).count n)
        = ((exts.flatMap fun e => [e, strUpper e]).countP
            fun pat => globMatch n pat) * files.count n := by
  intro exts
  induction exts with
  | nil => simp
  | cons e rest ih =>
    simp only [List.foldr_cons, List.flatMap_cons]
    rw [List.count_append, List.count_append, ih, List.countP_append,
      count_filter_eq, count_filter_eq]
    rcases Bool.eq_false_or_eq_true (globMatch n e) with h1 | h1 <;>
      rcases Bool.eq_false_or_eq_true (globMatch n (strUpper e)) with h2 | h2 <;>
        simp [List.countP_cons, h1, h2] <;> ring

lemma countP_match_le_one {n : String} :
    ∀ {l : List String},
      l.Pairwise (fun p q => ¬(p.data <:+ q.data) ∧ ¬(q.data <:+ p.data)) →
      (l.countP fun pat => globMatch n pat) ≤ 1 := by
  intro l
  induction l with
  | nil => intro _; simp
  | cons p rest ih =>
    intro hpw
    rcases List.pairwise_cons.mp hpw with ⟨hhead, htail⟩
    by_cases hm : globMatch n p = true
    · have hzero : (rest.countP fun pat => globMatch n pat) = 0 := by
        rw [List.countP_eq_zero]
        intro q hq hmq
        have h1 : p.data <:+ n.data := by simpa [globMatch] using hm
        have h2 : q.data <:+ n.data := by simpa [globMatch] using hmq
        rcases List.suffix_or_suffix_of_suffix h1 h2 with hss | hss
        · exact (hhead q hq).1 hss
        · exact (hhead q hq).2 hss
      simp [List.countP_cons, hm, hzero]
    · simp only [List.countP_cons, hm]
      simpa using ih htail

lemma patterns_pairwise :
    (supported_formats.flatMap fun e => [e, strUpper e]).Pairwise
      (fun p q => ¬(p.data <:+ q.data) ∧ ¬(q.data <:+ p.data)) := by
  decide

lemma count_candidates_le (files : List String) (n : String) :
    (batch_candidates files).count n ≤ files.count n := by
  unfold batch_candidates
  rw [count_candidates_aux]
  calc ((supported_formats.flatMap fun e => [e, strUpper e]).countP
          fun pat => globMatch n pat) * files.count n
      ≤ 1 * files.count n :=
        Nat.mul_le_mul_right _ (countP_match_le_one patterns_pairwise)
    _ = files.count n := one_mul _

lemma countP_le_of_counts {l1 l2 : List String}
    (h : ∀ n, l1.count n ≤ l2.count n) (g : String → Bool) :
    l1.countP g ≤ l2.countP g := by
  have hms : (l1 : Multiset String) ≤ (l2 : Multiset String) := by
    rw [Multiset.le_iff_count]
    intro a
    simpa [Multiset.coe_count] using h a
  have hcp := Multiset.countP_le_of_le (fun a => g a = true) hms
  simpa [Multiset.coe_countP] using hcp

/-- C3: the aggregate success count of a batch run is at most the number of
valid files (supported, existing, decodable) the directory enumeration sees,
and the per-file loop is strictly sequential: the count, final state and
trace of a run on `xs ++ ys` decompose as the run on `xs` followed by the
run on `ys` from the resulting state — every file is visited and individual
failures only contribute zero to the count. -/
theorem C3_batch (w : World) (st : SState) (inDir : Dir) (o? : Option Dir) :
    (batch_split w st inDir o?).1
        ≤ (w.listDir inDir).countP (fun n => GoodFile w (nameToFP inDir n)) ∧
    (∀ (outDir : Dir) (xs ys : List String) (st2 : SState),
      (batch_loop w st2 inDir outDir (xs ++ ys)).1
          = (batch_loop w st2 inDir outDir xs).1
            + (batch_loop w (batch_loop w st2 inDir outDir xs).2.1
                inDir outDir ys).1 ∧
      (batch_loop w st2 inDir outDir (xs ++ ys)).2.2
          = (batch_loop w st2 inDir outDir xs).2.2
            ++ (batch_loop w (batch_loop w st2 inDir outDir xs).2.1
                inDir outDir ys).2.2) := by
  constructor
  · cases hd : w.dirExists inDir with
    | false => simp [batch_split, hd]
    | true =>
      by_cases hempty : (batch_candidates (w.listDir inDir)).isEmpty = true
      · simp [batch_split, hd, hempty]
      · simp only [batch_split, hd, hempty]
        simp only [Bool.true_eq_false, if_false, Bool.false_eq_true, if_neg,
          not_false_eq_true]
        calc (batch_loop w st inDir (o?.getD (inDir ++ ["stems"]))
                (batch_candidates (w.listDir inDir))).1
            ≤ (batch_candidates (w.listDir inDir)).countP
                (fun n => GoodFile w (nameToFP inDir n)) :=
              batch_loop_le w inDir _ _ st
          _ ≤ (w.listDir inDir).countP (fun n => GoodFile w (nameToFP inDir n)) :=
              countP_le_of_counts (count_candidates_le (w.listDir inDir)) _
  · intro outDir xs ys st2
    obtain ⟨h1, h2, h3⟩ := batch_loop_append w inDir outDir xs ys st2
    exact ⟨h1, h3⟩

end GhostKitty
